import Mathlib

/-!
# Verification of the MiniGit core (`src/minigit.py`)

A shallow embedding of the MiniGit version-control engine.  The on-disk
repository state is modelled as an explicit filesystem value (`FS`): an
association list from paths to file contents (text files, as written and
read by the Python code in text mode), together with a set of directory
paths used only for existence checks.  Every MiniGit operation
(`init`, `hash_file`, `add`, `commit`, `log`, `clone`) becomes a pure
function from `FS` to `FS` paired with a result describing the printed
outcome (errors are the `Error:` messages the Python prints; an uncaught
exception raised mid-operation is modelled by a dedicated result
constructor together with the partially-updated state at the point of
the raise).

SHA-1 is implemented concretely (on byte lists, with `Nat` arithmetic
taken modulo `2 ^ 32` where the algorithm works on 32-bit words), and
file contents are hashed through their UTF-8 byte encoding, matching
`hashlib.sha1` applied to the file bytes / `str.encode()`.
-/

/-! ## SHA-1 over byte lists -/

/-- `2 ^ 32`, the word modulus of SHA-1. -/
def M32 : Nat := 4294967296

/-- Rotate the 32-bit word `x` left by `n` bits. -/
def rotl32 (n x : Nat) : Nat :=
  ((x <<< n) ||| (x >>> (32 - n))) % M32

/-- Big-endian 8-byte encoding of `n` (the length field of SHA-1 padding). -/
def beBytes8 (n : Nat) : List Nat :=
  [(n >>> 56) % 256, (n >>> 48) % 256, (n >>> 40) % 256, (n >>> 32) % 256,
   (n >>> 24) % 256, (n >>> 16) % 256, (n >>> 8) % 256, n % 256]

/-- SHA-1 padding: append `0x80`, zero bytes, and the 64-bit big-endian bit
length, reaching a multiple of 64 bytes. -/
def sha1pad (msg : List Nat) : List Nat :=
  let r := msg.length % 64
  let zeros := if r ≤ 55 then 55 - r else 119 - r
  msg ++ 0x80 :: List.replicate zeros 0 ++ beBytes8 (msg.length * 8)

/-- Group bytes into big-endian 32-bit words. -/
def bytesToWords : List Nat → List Nat
  | b0 :: b1 :: b2 :: b3 :: rest =>
      (b0 * 16777216 + b1 * 65536 + b2 * 256 + b3) :: bytesToWords rest
  | _ => []

/-- Message-schedule extension: `rev` holds the words produced so far in
reverse; generate `k` further words. -/
def sha1Schedule : List Nat → Nat → List Nat
  | rev, 0 => rev
  | rev, k + 1 =>
      sha1Schedule
        (rotl32 1 ((rev.getD 2 0) ^^^ (rev.getD 7 0) ^^^ (rev.getD 13 0) ^^^ (rev.getD 15 0)) :: rev)
        k

/-- The 80 compression rounds; `i` is the round index. -/
def sha1Rounds : Nat → Nat × Nat × Nat × Nat × Nat → List Nat → Nat × Nat × Nat × Nat × Nat
  | _, st, [] => st
  | i, (a, b, c, d, e), w :: ws =>
      let f :=
        if i < 20 then (b &&& c) ||| ((4294967295 ^^^ b) &&& d)
        else if i < 40 then b ^^^ c ^^^ d
        else if i < 60 then (b &&& c) ||| (b &&& d) ||| (c &&& d)
        else b ^^^ c ^^^ d
      let k :=
        if i < 20 then 0x5A827999
        else if i < 40 then 0x6ED9EBA1
        else if i < 60 then 0x8F1BBCDC
        else 0xCA62C1D6
      let temp := (rotl32 5 a + f + e + k + w) % M32
      sha1Rounds (i + 1) (temp, a, rotl32 30 b, c, d) ws

/-- Process the word stream 16 words (one 512-bit block) at a time. -/
def sha1Blocks : Nat × Nat × Nat × Nat × Nat → List Nat → Nat × Nat × Nat × Nat × Nat
  | st, w0 :: w1 :: w2 :: w3 :: w4 :: w5 :: w6 :: w7 :: w8 :: w9 :: w10 :: w11 :: w12 :: w13 :: w14 :: w15 :: rest =>
      let ws := (sha1Schedule [w15, w14, w13, w12, w11, w10, w9, w8, w7, w6, w5, w4, w3, w2, w1, w0] 64).reverse
      let (h0, h1, h2, h3, h4) := st
      let (a, b, c, d, e) := sha1Rounds 0 st ws
      sha1Blocks ((h0 + a) % M32, (h1 + b) % M32, (h2 + c) % M32, (h3 + d) % M32, (h4 + e) % M32) rest
  | st, _ => st

/-- The SHA-1 digest of a byte list, as five 32-bit words. -/
def sha1 (msg : List Nat) : Nat × Nat × Nat × Nat × Nat :=
  sha1Blocks (0x67452301, 0xEFCDAB89, 0x98BADCFE, 0x10325476, 0xC3D2E1F0) (bytesToWords (sha1pad msg))

/-- Lowercase hexadecimal digit for `n < 16`. -/
def hexDigit (n : Nat) : Char :=
  if n < 10 then Char.ofNat (48 + n) else Char.ofNat (87 + n)

/-- The eight hex characters of a 32-bit word. -/
def hexWord (w : Nat) : List Char :=
  [hexDigit ((w >>> 28) % 16), hexDigit ((w >>> 24) % 16), hexDigit ((w >>> 20) % 16),
   hexDigit ((w >>> 16) % 16), hexDigit ((w >>> 12) % 16), hexDigit ((w >>> 8) % 16),
   hexDigit ((w >>> 4) % 16), hexDigit (w % 16)]

/-- `hashlib.sha1(...).hexdigest()`: the 40-character lowercase hex digest. -/
def sha1hex (msg : List Nat) : String :=
  match sha1 msg with
  | (h0, h1, h2, h3, h4) =>
      String.mk (hexWord h0 ++ hexWord h1 ++ hexWord h2 ++ hexWord h3 ++ hexWord h4)

/-- UTF-8 encoding of one character. -/
def charUtf8 (c : Char) : List Nat :=
  let n := c.toNat
  if n < 128 then [n]
  else if n < 2048 then [192 ||| (n >>> 6), 128 ||| (n &&& 63)]
  else if n < 65536 then
    [224 ||| (n >>> 12), 128 ||| ((n >>> 6) &&& 63), 128 ||| (n &&& 63)]
  else
    [240 ||| (n >>> 18), 128 ||| ((n >>> 12) &&& 63), 128 ||| ((n >>> 6) &&& 63), 128 ||| (n &&& 63)]

/-- UTF-8 byte encoding of a string (the bytes Python reads from a text
file / produces with `str.encode()`). -/
def strBytes (s : String) : List Nat :=
  s.data.foldr (fun c acc => charUtf8 c ++ acc) []

/-- `hashlib.sha1(s.encode()).hexdigest()`. -/
def sha1hexStr (s : String) : String :=
  sha1hex (strBytes s)

/-! ## Python string primitives used by the source -/

/-- The whitespace characters removed by Python `str.strip()`. -/
def isPyWS (c : Char) : Bool :=
  c == ' ' || c == '\t' || c == '\n' || c == '\r' || c == '\x0b' || c == '\x0c'

/-- Python `str.strip()`: drop leading and trailing whitespace. -/
def pyStrip (s : String) : String :=
  String.mk (((s.data.dropWhile isPyWS).reverse.dropWhile isPyWS).reverse)

/-- Iterating a text file splits its content at newline characters; the
final fragment is dropped when empty (a file ending in a newline yields no
extra empty line).  The newline terminators themselves are dropped here;
the source always passes each line through `strip()`, which removes them
anyway. -/
def linesAux : List Char → List Char → List (List Char)
  | [], acc => if acc.isEmpty then [] else [acc.reverse]
  | c :: rest, acc => if c == '\n' then acc.reverse :: linesAux rest [] else linesAux rest (c :: acc)

/-- The lines of a text file's content, in Python file-iteration order. -/
def pyLines (s : String) : List String :=
  (linesAux s.data []).map String.mk

/-- Python `file.readline()` on the first line, newline excluded (the
source strips it immediately). -/
def firstLine (s : String) : String :=
  String.mk (s.data.takeWhile (fun c => !(c == '\n')))

/-- Strip a known prefix from a character list, returning the remainder. -/
def dropPre : List Char → List Char → Option (List Char)
  | [], s => some s
  | _, [] => none
  | p :: ps, c :: cs => if c = p then dropPre ps cs else none

/-- Whether `pre` is a prefix of `s`. -/
def strStartsWith (pre s : String) : Bool :=
  (dropPre pre.data s.data).isSome

/-- `os.path.join` for the relative, slash-free-tail paths the source
builds (no absolute second component, no trailing separator on the first). -/
def pyJoin (a b : String) : String :=
  if a = "" then b else a ++ "/" ++ b

/-! ## The filesystem state

`files` is an association list from paths to text-file contents (first
match wins; the write primitive keeps keys unique).  `dirs` records
directory paths; the MiniGit code only ever consults directories through
`os.path.exists`, so nothing more than their names is needed. -/

/-- Look up the content of the file at path `p`. -/
def lookupFile : List (String × String) → String → Option String
  | [], _ => none
  | (k, v) :: rest, p => if p = k then some v else lookupFile rest p

/-- Overwrite (or create) the file at path `p` with content `c`. -/
def setFile : List (String × String) → String → String → List (String × String)
  | [], p, c => [(p, c)]
  | (k, v) :: rest, p, c => if p = k then (p, c) :: rest else (k, v) :: setFile rest p c

/-- The modelled on-disk state. -/
structure FS where
  files : List (String × String)
  dirs : List String
deriving DecidableEq

/-- Read the file at `p` (`none` when no such file exists). -/
def FS.read (fs : FS) (p : String) : Option String :=
  lookupFile fs.files p

/-- `os.path.exists`: true for files and directories alike. -/
def FS.pathExists (fs : FS) (p : String) : Bool :=
  (FS.read fs p).isSome || fs.dirs.contains p

/-- `open(p, "w")` followed by writing `c`: truncate or create. -/
def FS.write (fs : FS) (p c : String) : FS :=
  { fs with files := setFile fs.files p c }

/-- `open(p, "a")` followed by writing `s`: append, creating the file
when absent. -/
def FS.append (fs : FS) (p s : String) : FS :=
  FS.write fs p (((FS.read fs p).getD "") ++ s)

/-- The filesystem with no files and no directories. -/
def emptyFS : FS := ⟨[], []⟩

/-! ## The MiniGit operations (`src/minigit.py`) -/

namespace MiniGit

/-- `self.repo_dir`. -/
def repoDir : String := ".minigit"

/-- `self.objects_dir`. -/
def objectsDir : String := ".minigit/objects"

/-- `self.index_file`. -/
def indexFile : String := ".minigit/index"

/-- `self.head_file`. -/
def headFile : String := ".minigit/HEAD"

/-- `os.path.join(self.objects_dir, h)`. -/
def objPath (h : String) : String := ".minigit/objects/" ++ h

/-- `os.path.join(self.repo_dir, f"refs_{branch}.txt")`. -/
def refsPath (branch : String) : String := ".minigit/refs_" ++ branch ++ ".txt"

/-- `MiniGit.init`: create `.minigit` with an empty index and `HEAD`
containing `main\n`; report (without writing) when the repository
directory already exists.  The returned flag is `true` when a fresh
repository was created. -/
def init (fs : FS) : FS × Bool :=
  if FS.pathExists fs repoDir then (fs, false)
  else
    (⟨setFile (setFile fs.files indexFile "") headFile "main\n",
      fs.dirs ++ [repoDir, objectsDir]⟩, true)

/-- `MiniGit.hash_file`: the SHA-1 hex digest of the file's bytes. -/
def hash_file (fs : FS) (filepath : String) : Option String :=
  (FS.read fs filepath).map sha1hexStr

/-- Outcome of `MiniGit.add`.  `fileNotFound` is the printed
`Error: File ... does not exist.`; `openFailed` models the uncaught
exception raised when the path exists but is not a readable file (a
directory). -/
inductive AddResult where
  | fileNotFound
  | openFailed
  | staged (h : String)
deriving DecidableEq

/-- `MiniGit.add`: hash the file, store the blob under
`objects/<hash>` unless that path already exists, and append
`"<path> <hash>\n"` to the index. -/
def add (fs : FS) (filepath : String) : FS × AddResult :=
  if FS.pathExists fs filepath = false then (fs, .fileNotFound)
  else
    match FS.read fs filepath with
    | none => (fs, .openFailed)
    | some content =>
        let file_hash := sha1hexStr content
        let blob_path := objPath file_hash
        let fs1 := if FS.pathExists fs blob_path then fs else FS.write fs blob_path content
        let fs2 := FS.append fs1 indexFile (filepath ++ " " ++ file_hash ++ "\n")
        (fs2, .staged file_hash)

/-- Outcome of `MiniGit.commit`.  `nothingToCommit` is the printed
`Error: No changes to commit.`; `headMissing` models the uncaught
exception from `open(self.head_file, "r+")` when `HEAD` is absent —
note that it is raised only after the commit object has been written. -/
inductive CommitResult where
  | nothingToCommit
  | headMissing
  | committed (h : String)
deriving DecidableEq

/-- `MiniGit.commit`: refuse when the index is missing or empty;
otherwise hash the serialized index content, write the commit record
`"Message: <message>\n<index content>"` (unconditionally) under
`objects/<hash>`, append the hash to the active branch's reference log,
and truncate the index. -/
def commit (fs : FS) (message : String) : FS × CommitResult :=
  match FS.read fs indexFile with
  | none => (fs, .nothingToCommit)
  | some index_content =>
      if index_content = "" then (fs, .nothingToCommit)
      else
        let commit_hash := sha1hexStr index_content
        let fs1 := FS.write fs (objPath commit_hash) ("Message: " ++ message ++ "\n" ++ index_content)
        match FS.read fs1 headFile with
        | none => (fs1, .headMissing)
        | some head_content =>
            let branch_name := pyStrip head_content
            let fs2 := FS.append fs1 (refsPath branch_name) (commit_hash ++ "\n")
            let fs3 := FS.write fs2 indexFile ""
            (fs3, .committed commit_hash)

/-- Outcome of `MiniGit.log`.  `headMissingL` and `objectMissing` model
the uncaught exceptions when `HEAD` or a referenced commit record is
absent; `noCommits` is the printed `No commits found.`. -/
inductive LogResult where
  | headMissingL
  | noCommits
  | objectMissing
  | history (entries : List (String × String))
deriving DecidableEq

/-- For each stripped reference-log line, load the commit record and
extract its first line, stripped — the `f"{commit_hash} - {message}"`
pairs `MiniGit.log` prints. -/
def logEntries (fs : FS) : List String → Option (List (String × String))
  | [] => some []
  | line :: rest =>
      let h := pyStrip line
      match FS.read fs (objPath h) with
      | none => none
      | some record =>
          match logEntries fs rest with
          | none => none
          | some es => some ((h, pyStrip (firstLine record)) :: es)

/-- `MiniGit.log`: read the active branch from `HEAD`, then walk its
reference log oldest-first, printing each hash with the stripped first
line of its commit record. -/
def log (fs : FS) : LogResult :=
  match FS.read fs headFile with
  | none => .headMissingL
  | some head_content =>
      let branch_path := refsPath (pyStrip head_content)
      match FS.read fs branch_path with
      | none => .noCommits
      | some refContent =>
          match logEntries fs (pyLines refContent) with
          | none => .objectMissing
          | some es => .history es

/-- Outcome of `MiniGit.clone`.  `destinationExists` is the printed
`Error: Directory ... already exists.`; `sourceMissing` and
`copytreeTargetExists` model the uncaught `shutil.copytree` exceptions
(source `.minigit` absent, or the computed destination directory already
present — reachable only for degenerate targets such as `""`). -/
inductive CloneResult where
  | destinationExists
  | sourceMissing
  | copytreeTargetExists
  | cloned
deriving DecidableEq

/-- The files `shutil.copytree` places under the destination: every file
under `".minigit/"`, re-rooted at `dst` (the key becomes
`dst ++ "/" ++ <path inside .minigit>`). -/
def copyFiles (dst : String) : List (String × String) → List (String × String)
  | [] => []
  | (k, v) :: rest =>
      match dropPre ".minigit/".data k.data with
      | some r => (dst ++ "/" ++ String.mk r, v) :: copyFiles dst rest
      | none => copyFiles dst rest

/-- The directories `shutil.copytree` creates under the destination. -/
def copyDirs (dst : String) : List String → List String
  | [] => []
  | d :: rest =>
      if d = ".minigit" then dst :: copyDirs dst rest
      else
        match dropPre ".minigit/".data d.data with
        | some r => (dst ++ "/" ++ String.mk r) :: copyDirs dst rest
        | none => copyDirs dst rest

/-- `MiniGit.clone`: refuse when the target path exists; otherwise
`shutil.copytree(".minigit", os.path.join(target, ".minigit"))`, a full
byte-for-byte copy of every file and directory under `.minigit`. -/
def clone (fs : FS) (target : String) : FS × CloneResult :=
  if FS.pathExists fs target then (fs, .destinationExists)
  else if FS.pathExists fs repoDir = false then (fs, .sourceMissing)
  else
    let dst := pyJoin target repoDir
    if FS.pathExists fs dst then (fs, .copytreeTargetExists)
    else
      (⟨fs.files ++ copyFiles dst fs.files, fs.dirs ++ target :: copyDirs dst fs.dirs⟩, .cloned)

/-! ### The well-formed-repository invariant and reachability -/

/-- The reference-log file content after the commits in `hist`: one
40-hex-character identifier per line, oldest first. -/
def refLogContent (hist : List (String × String)) : String :=
  hist.foldr (fun e acc => sha1hexStr e.1 ++ "\n" ++ acc) ""

/-- The repository invariant maintained by the MiniGit operations on a
reachable repository whose successful commits are exactly `hist` and
whose commit identifiers never collided. -/
structure GoodLog (fs : FS) (hist : List (String × String)) : Prop where
  headOk : FS.read fs headFile = some "main\n"
  refsOk : FS.read fs (refsPath "main") =
    if hist.isEmpty then none else some (refLogContent hist)
  objsOk : ∀ e ∈ hist,
    FS.read fs (objPath (sha1hexStr e.1)) = some ("Message: " ++ e.2 ++ "\n" ++ e.1)
  dirOk : repoDir ∈ fs.dirs

/-- Condition on a commit message under which `strip()` does not mangle
the stored message line: no newline inside, no trailing whitespace. -/
def MsgOk (m : String) : Prop :=
  (∀ ch ∈ m.data, ch ≠ '\n') ∧ pyStrip ("Message: " ++ m) = "Message: " ++ m

/-! ## Reachable repository states

`Reach fs hist` holds when `fs` arises from `init` on an empty
filesystem through a sequence of MiniGit operations and ordinary
working-area file writes; `hist` records, in order, the (serialized
index content, message) pair of every successful commit.  Environment
writes are restricted to paths outside the repository directory and
clone targets to paths not starting with a dot — the single-actor
assumption of the specification. -/

inductive Reach : FS → List (String × String) → Prop where
  | repoInit : Reach (init emptyFS).1 []
  | envWrite {fs : FS} {hist : List (String × String)} (p c : String)
      (h : Reach fs hist) (hp : strStartsWith ".minigit" p = false) :
      Reach (FS.write fs p c) hist
  | stepAdd {fs : FS} {hist : List (String × String)} (p : String)
      (h : Reach fs hist) : Reach (add fs p).1 hist
  | stepCommit {fs : FS} {hist : List (String × String)} (m c : String)
      (h : Reach fs hist) (hc : FS.read fs indexFile = some c) (hne : c ≠ "") :
      Reach (commit fs m).1 (hist ++ [(c, m)])
  | stepClone {fs : FS} {hist : List (String × String)} (t : String)
      (h : Reach fs hist) (ht : t.data.head? ≠ some '.') :
      Reach (clone fs t).1 hist

end MiniGit

/-! ### Concrete repository runs used as fixtures

A single-file workflow: initialize, create `a.txt` with content
`"hello"`, stage it, commit `"first"`, stage the same file again, commit
`"second"`.  `icDemo` is the serialized index content of both commits. -/

/-- The fresh repository with a working-area file `a.txt` = `"hello"`. -/
def fsDemo0 : FS := FS.write (MiniGit.init emptyFS).1 "a.txt" "hello"

/-- After staging `a.txt`. -/
def fsDemo1 : FS := (MiniGit.add fsDemo0 "a.txt").1

/-- After committing with message `"first"`. -/
def fsDemo2 : FS := (MiniGit.commit fsDemo1 "first").1

/-- After staging `a.txt` a second time. -/
def fsDemo3 : FS := (MiniGit.add fsDemo2 "a.txt").1

/-- After committing the identical index content with message `"second"`. -/
def fsDemo4 : FS := (MiniGit.commit fsDemo3 "second").1

/-- The serialized index content of both demo commits. -/
def icDemo : String := "a.txt " ++ sha1hexStr "hello" ++ "\n"

/-- A fresh repository with two working-area files `a.txt` and `b.txt`
holding the same bytes `"hello"`. -/
def fsDemoB : FS := FS.write fsDemo0 "b.txt" "hello"

/-! ## Association-list lemmas -/

theorem lookupFile_setFile (l : List (String × String)) (k v p : String) :
    lookupFile (setFile l k v) p = if p = k then some v else lookupFile l p := by
  induction l with
  | nil => by_cases h : p = k <;> simp [setFile, lookupFile, h]
  | cons kv rest ih =>
      obtain ⟨k0, v0⟩ := kv
      by_cases hk : k = k0
      · subst hk
        by_cases hp : p = k <;> simp [setFile, lookupFile, hp]
      · by_cases hp : p = k0
        · subst hp
          have hpk : ¬p = k := fun h => hk h.symm
          simp [setFile, lookupFile, hk, hpk]
        · simp [setFile, lookupFile, hk, hp, ih]

theorem lookupFile_append (l1 l2 : List (String × String)) (p : String) :
    lookupFile (l1 ++ l2) p =
      match lookupFile l1 p with
      | some v => some v
      | none => lookupFile l2 p := by
  induction l1 with
  | nil => simp [lookupFile]
  | cons kv rest ih =>
      obtain ⟨k0, v0⟩ := kv
      by_cases hp : p = k0 <;> simp [lookupFile, hp, ih]

theorem setFile_of_lookup_none (l : List (String × String)) (k v : String)
    (h : lookupFile l k = none) : setFile l k v = l ++ [(k, v)] := by
  induction l with
  | nil => simp [setFile]
  | cons kv rest ih =>
      obtain ⟨k0, v0⟩ := kv
      by_cases hk : k = k0
      · simp [lookupFile, hk] at h
      · simp [lookupFile, hk] at h
        simp [setFile, hk, ih h]

theorem FS.read_write (fs : FS) (p c q : String) :
    FS.read (FS.write fs p c) q = if q = p then some c else FS.read fs q := by
  simp [FS.read, FS.write, lookupFile_setFile]

theorem FS.read_append_eq (fs : FS) (p s : String) :
    FS.read (FS.append fs p s) p = some (((FS.read fs p).getD "") ++ s) := by
  simp [FS.append, FS.read_write]

theorem FS.read_append_ne (fs : FS) (p s q : String) (h : q ≠ p) :
    FS.read (FS.append fs p s) q = FS.read fs q := by
  simp [FS.append, FS.read_write, h]

/-! ## Prefix-stripping lemmas -/

theorem dropPre_some_iff (p s r : List Char) :
    dropPre p s = some r ↔ s = p ++ r := by
  induction p generalizing s with
  | nil => simp [dropPre, eq_comm]
  | cons c cs ih =>
      cases s with
      | nil => simp [dropPre]
      | cons a as =>
          by_cases h : a = c
          · subst h; simp [dropPre, ih]
          · simp [dropPre, h, Ne.symm h]

theorem dropPre_none_ne (p s : List Char) (h : dropPre p s = none) (r : List Char) :
    s ≠ p ++ r := by
  intro hs
  have := (dropPre_some_iff p s r).mpr hs
  rw [h] at this
  exact Option.noConfusion this

/-! ## Characters of SHA-1 digests -/

theorem hexDigit_not_ws (n : Nat) :
    isPyWS (hexDigit (n % 16)) = false := by
  have h : n % 16 < 16 := Nat.mod_lt _ (by decide)
  revert h
  generalize n % 16 = m
  revert m
  decide

theorem sha1hex_data (msg : List Nat) :
    ∃ h0 h1 h2 h3 h4,
      (sha1hex msg).data = hexWord h0 ++ hexWord h1 ++ hexWord h2 ++ hexWord h3 ++ hexWord h4 := by
  rcases hv : sha1 msg with ⟨h0, h1, h2, h3, h4⟩
  exact ⟨h0, h1, h2, h3, h4, by simp [sha1hex, hv]⟩

theorem hexWord_not_ws (w : Nat) : ∀ c ∈ hexWord w, isPyWS c = false := by
  simp only [hexWord, List.mem_cons, List.not_mem_nil, or_false]
  rintro c (rfl | rfl | rfl | rfl | rfl | rfl | rfl | rfl) <;> exact hexDigit_not_ws _

theorem sha1hex_not_ws (msg : List Nat) : ∀ c ∈ (sha1hex msg).data, isPyWS c = false := by
  obtain ⟨h0, h1, h2, h3, h4, hdata⟩ := sha1hex_data msg
  rw [hdata]
  intro c hc
  simp only [List.mem_append] at hc
  rcases hc with ((((hc | hc) | hc) | hc) | hc) <;> exact hexWord_not_ws _ c hc

theorem sha1hex_length (msg : List Nat) : (sha1hex msg).data.length = 40 := by
  obtain ⟨h0, h1, h2, h3, h4, hdata⟩ := sha1hex_data msg
  rw [hdata]
  simp [hexWord]

theorem sha1hex_no_newline (msg : List Nat) : ∀ c ∈ (sha1hex msg).data, c ≠ '\n' := by
  intro c hc he
  have := sha1hex_not_ws msg c hc
  rw [he] at this
  simp [isPyWS] at this

theorem sha1hex_ne_empty (msg : List Nat) : sha1hex msg ≠ "" := by
  intro h
  have := sha1hex_length msg
  rw [h] at this
  simp at this

/-! ## `strip` and `lines` lemmas -/

theorem dropWhile_eq_self_of_not (p : Char → Bool) (l : List Char)
    (h : ∀ c ∈ l, p c = false) : l.dropWhile p = l := by
  cases l with
  | nil => rfl
  | cons c rest => simp [List.dropWhile, h c (by simp)]

theorem pyStrip_eq_self (s : String) (h : ∀ c ∈ s.data, isPyWS c = false) :
    pyStrip s = s := by
  unfold pyStrip
  rw [dropWhile_eq_self_of_not _ _ h]
  rw [dropWhile_eq_self_of_not _ _ (by intro c hc; exact h c (by simpa using hc))]
  cases s
  simp

theorem pyStrip_sha1hex (msg : List Nat) : pyStrip (sha1hex msg) = sha1hex msg :=
  pyStrip_eq_self _ (sha1hex_not_ws msg)

theorem sha1hexStr_ne_empty (s : String) : sha1hexStr s ≠ "" := sha1hex_ne_empty _

theorem sha1hexStr_no_newline (s : String) : ∀ c ∈ (sha1hexStr s).data, c ≠ '\n' :=
  sha1hex_no_newline _

theorem pyStrip_sha1hexStr (s : String) : pyStrip (sha1hexStr s) = sha1hexStr s :=
  pyStrip_sha1hex _

theorem linesAux_nil (acc : List Char) :
    linesAux [] acc = if acc.isEmpty then [] else [acc.reverse] := rfl

theorem linesAux_cons_newline (rest acc : List Char) :
    linesAux ('\n' :: rest) acc = acc.reverse :: linesAux rest [] := by
  simp [linesAux]

theorem linesAux_cons_other (c : Char) (rest acc : List Char) (hc : c ≠ '\n') :
    linesAux (c :: rest) acc = linesAux rest (c :: acc) := by
  simp [linesAux, hc]

theorem linesAux_append_newline (xs rest acc : List Char)
    (hxs : ∀ c ∈ xs, c ≠ '\n') :
    linesAux (xs ++ '\n' :: rest) acc = (acc.reverse ++ xs) :: linesAux rest [] := by
  induction xs generalizing acc with
  | nil => rw [List.nil_append, linesAux_cons_newline]; simp
  | cons c cs ih =>
      rw [List.cons_append, linesAux_cons_other c _ _ (hxs c (by simp)),
        ih _ (fun x hx => hxs x (by simp [hx]))]
      simp

theorem linesAux_split (s0 t : List Char) : ∀ acc,
    linesAux ((s0 ++ ['\n']) ++ t) acc = linesAux (s0 ++ ['\n']) acc ++ linesAux t [] := by
  induction s0 with
  | nil =>
      intro acc
      rw [List.nil_append, List.singleton_append, linesAux_cons_newline, linesAux_cons_newline]
      simp [linesAux_nil]
  | cons c cs ih =>
      intro acc
      by_cases hc : c = '\n'
      · subst hc
        rw [List.cons_append, List.cons_append, linesAux_cons_newline, linesAux_cons_newline, ih]
        simp
      · rw [List.cons_append, List.cons_append, linesAux_cons_other _ _ _ hc,
          linesAux_cons_other _ _ _ hc, ih]

theorem pyLines_append_line (s h : String)
    (hs : s = "" ∨ ∃ s0, s.data = s0 ++ ['\n'])
    (hne : h ≠ "") (hnl : ∀ c ∈ h.data, c ≠ '\n') :
    pyLines (s ++ h ++ "\n") = pyLines s ++ [h] := by
  have hdata : (s ++ h ++ "\n").data = s.data ++ (h.data ++ '\n' :: []) := by
    simp [String.data_append]
  have hlast : linesAux (h.data ++ '\n' :: []) [] = [h.data] := by
    rw [linesAux_append_newline h.data [] [] hnl]
    simp [linesAux_nil]
  have hmk : String.mk h.data = h := by cases h; rfl
  rcases hs with rfl | ⟨s0, hs0⟩
  · unfold pyLines
    rw [hdata]
    show List.map String.mk (linesAux ([] ++ (h.data ++ '\n' :: [])) []) = _
    rw [List.nil_append, hlast]
    simp [linesAux_nil, hmk]
  · unfold pyLines
    rw [hdata, hs0, linesAux_split s0 _ [], hlast, ← hs0]
    simp [hmk]

/-! ## Distinctness of the repository paths -/

theorem stringDataInj {a b : String} (h : a.data = b.data) : a = b := by
  cases a; cases b; cases h; rfl

theorem stringMkData (s : String) : String.mk s.data = s := by cases s; rfl

theorem string_ne_of_char9 {a b : String} {c1 c2 : Char}
    (ha : a.data[9]? = some c1) (hb : b.data[9]? = some c2) (hne : c1 ≠ c2) : a ≠ b := by
  intro e
  subst e
  rw [ha] at hb
  exact hne (Option.some.inj hb)

theorem objPath_char9 (h : String) : (MiniGit.objPath h).data[9]? = some 'o' := by
  unfold MiniGit.objPath
  rw [String.data_append]
  rw [List.getElem?_append_left (by decide : (9 : Nat) < (".minigit/objects/" : String).data.length)]
  decide

theorem refsPath_char9 (b : String) : (MiniGit.refsPath b).data[9]? = some 'r' := by
  unfold MiniGit.refsPath
  rw [String.data_append, String.data_append, List.append_assoc]
  rw [List.getElem?_append_left (by decide : (9 : Nat) < (".minigit/refs_" : String).data.length)]
  decide

theorem objPath_ne_indexFile (h : String) : MiniGit.objPath h ≠ MiniGit.indexFile :=
  string_ne_of_char9 (objPath_char9 h)
    (show MiniGit.indexFile.data[9]? = some 'i' by decide) (by decide)

theorem objPath_ne_headFile (h : String) : MiniGit.objPath h ≠ MiniGit.headFile :=
  string_ne_of_char9 (objPath_char9 h)
    (show MiniGit.headFile.data[9]? = some 'H' by decide) (by decide)

theorem objPath_ne_refsPath (h b : String) : MiniGit.objPath h ≠ MiniGit.refsPath b :=
  string_ne_of_char9 (objPath_char9 h) (refsPath_char9 b) (by decide)

theorem refsPath_ne_indexFile (b : String) : MiniGit.refsPath b ≠ MiniGit.indexFile :=
  string_ne_of_char9 (refsPath_char9 b)
    (show MiniGit.indexFile.data[9]? = some 'i' by decide) (by decide)

theorem refsPath_ne_headFile (b : String) : MiniGit.refsPath b ≠ MiniGit.headFile :=
  string_ne_of_char9 (refsPath_char9 b)
    (show MiniGit.headFile.data[9]? = some 'H' by decide) (by decide)

theorem objPath_inj {h1 h2 : String} (e : MiniGit.objPath h1 = MiniGit.objPath h2) :
    h1 = h2 := by
  unfold MiniGit.objPath at e
  have := congrArg String.data e
  rw [String.data_append, String.data_append] at this
  exact stringDataInj (List.append_cancel_left this)

theorem strStartsWith_append (pre x : String) : strStartsWith pre (pre ++ x) = true := by
  unfold strStartsWith
  rw [String.data_append, (dropPre_some_iff pre.data _ x.data).mpr rfl]
  rfl

theorem objPath_decomp (h : String) :
    MiniGit.objPath h = ".minigit" ++ ("/objects/" ++ h) := by
  apply stringDataInj
  unfold MiniGit.objPath
  rw [String.data_append, String.data_append, String.data_append]
  rw [← List.append_assoc]
  rfl

theorem refsPath_decomp (b : String) :
    MiniGit.refsPath b = ".minigit" ++ ("/refs_" ++ b ++ ".txt") := by
  apply stringDataInj
  unfold MiniGit.refsPath
  repeat rw [String.data_append]
  rw [← List.append_assoc, ← List.append_assoc]
  rfl

theorem strStartsWith_objPath (h : String) :
    strStartsWith ".minigit" (MiniGit.objPath h) = true := by
  rw [objPath_decomp]
  exact strStartsWith_append _ _

theorem strStartsWith_refsPath (b : String) :
    strStartsWith ".minigit" (MiniGit.refsPath b) = true := by
  rw [refsPath_decomp]
  exact strStartsWith_append _ _

theorem ne_of_strStartsWith {p k : String}
    (hp : strStartsWith ".minigit" p = false)
    (hk : strStartsWith ".minigit" k = true) : p ≠ k := by
  intro e
  rw [e, hk] at hp
  exact Bool.noConfusion hp

/-! ## Basic facts about the filesystem operations -/

theorem FS.read_none_of_pathExists_false {fs : FS} {p : String}
    (h : FS.pathExists fs p = false) : FS.read fs p = none := by
  unfold FS.pathExists at h
  rcases hr : FS.read fs p with _ | c
  · rfl
  · rw [hr] at h; simp at h

theorem FS.pathExists_true_of_read {fs : FS} {p c : String}
    (h : FS.read fs p = some c) : FS.pathExists fs p = true := by
  unfold FS.pathExists
  rw [h]
  rfl

theorem FS.dirs_write (fs : FS) (p c : String) : (FS.write fs p c).dirs = fs.dirs := rfl

theorem FS.dirs_append (fs : FS) (p s : String) : (FS.append fs p s).dirs = fs.dirs := rfl

/-! ## Characterizations of the MiniGit operations -/

namespace MiniGit

theorem add_fileNotFound (fs : FS) (p : String) (h : FS.pathExists fs p = false) :
    add fs p = (fs, .fileNotFound) := by
  simp [add, h]

theorem add_run (fs : FS) (p c : String) (h : FS.read fs p = some c) :
    add fs p =
      (FS.append
         (if FS.pathExists fs (objPath (sha1hexStr c)) then fs
          else FS.write fs (objPath (sha1hexStr c)) c)
         indexFile (p ++ " " ++ sha1hexStr c ++ "\n"),
       .staged (sha1hexStr c)) := by
  have hex : FS.pathExists fs p = true := FS.pathExists_true_of_read h
  simp [add, hex, h]

theorem commit_noIndex (fs : FS) (m : String) (h : FS.read fs indexFile = none) :
    commit fs m = (fs, .nothingToCommit) := by
  simp [commit, h]

theorem commit_emptyIndex (fs : FS) (m : String) (h : FS.read fs indexFile = some "") :
    commit fs m = (fs, .nothingToCommit) := by
  simp [commit, h]

theorem commit_run (fs : FS) (m c hc : String)
    (h1 : FS.read fs indexFile = some c) (h2 : c ≠ "")
    (h3 : FS.read fs headFile = some hc) :
    commit fs m =
      (FS.write
         (FS.append
            (FS.write fs (objPath (sha1hexStr c)) ("Message: " ++ m ++ "\n" ++ c))
            (refsPath (pyStrip hc)) (sha1hexStr c ++ "\n"))
         indexFile "",
       .committed (sha1hexStr c)) := by
  have h3' : FS.read (FS.write fs (objPath (sha1hexStr c)) ("Message: " ++ m ++ "\n" ++ c))
      headFile = some hc := by
    rw [FS.read_write]
    simp [(objPath_ne_headFile (sha1hexStr c)).symm, h3]
  simp [commit, h1, h2, h3']

theorem commit_committed_inv (fs : FS) (m i : String)
    (h : (commit fs m).2 = .committed i) :
    ∃ c, FS.read fs indexFile = some c ∧ c ≠ "" ∧ i = sha1hexStr c := by
  unfold commit at h
  rcases hr : FS.read fs indexFile with _ | c
  · rw [hr] at h; simp at h
  · rw [hr] at h
    by_cases hc : c = ""
    · simp [hc] at h
    · refine ⟨c, rfl, hc, ?_⟩
      simp only [hc, if_false] at h
      rcases hh : FS.read (FS.write fs (objPath (sha1hexStr c))
          ("Message: " ++ m ++ "\n" ++ c)) headFile with _ | hcont
      · rw [hh] at h; simp at h
      · rw [hh] at h
        simp at h
        exact h.symm

end MiniGit

/-! ## The shape of a well-formed repository with history `hist` -/

namespace MiniGit

theorem refLogContent_append (hist : List (String × String)) (e : String × String) :
    refLogContent (hist ++ [e]) = refLogContent hist ++ (sha1hexStr e.1 ++ "\n") := by
  induction hist with
  | nil =>
      show sha1hexStr e.1 ++ "\n" ++ "" = "" ++ (sha1hexStr e.1 ++ "\n")
      rw [String.append_empty, String.empty_append]
  | cons e0 rest ih =>
      show sha1hexStr e0.1 ++ "\n" ++ refLogContent (rest ++ [e]) = _
      rw [ih]
      show _ = sha1hexStr e0.1 ++ "\n" ++ refLogContent rest ++ (sha1hexStr e.1 ++ "\n")
      simp [String.append_assoc]

theorem refLogContent_shape (hist : List (String × String)) :
    refLogContent hist = "" ∨ ∃ s0, (refLogContent hist).data = s0 ++ ['\n'] := by
  induction hist using List.reverseRecOn with
  | nil => exact Or.inl rfl
  | append_singleton l e _ =>
      right
      rw [refLogContent_append, ← String.append_assoc, String.data_append]
      exact ⟨(refLogContent l ++ sha1hexStr e.1).data, rfl⟩

theorem pyLines_refLog (hist : List (String × String)) :
    pyLines (refLogContent hist) = hist.map (fun e => sha1hexStr e.1) := by
  induction hist using List.reverseRecOn with
  | nil => rfl
  | append_singleton l e ih =>
      rw [refLogContent_append, ← String.append_assoc,
        pyLines_append_line (refLogContent l) (sha1hexStr e.1) (refLogContent_shape l)
          (sha1hexStr_ne_empty _) (sha1hexStr_no_newline _), ih]
      simp

end MiniGit

/-! ## Extracting messages from commit records -/

theorem takeWhile_newline (xs rest : List Char) (h : ∀ c ∈ xs, c ≠ '\n') :
    (xs ++ '\n' :: rest).takeWhile (fun c => !(c == '\n')) = xs := by
  induction xs with
  | nil => simp [List.takeWhile_cons]
  | cons c cs ih =>
      rw [List.cons_append, List.takeWhile_cons]
      have hc : c ≠ '\n' := h c (by simp)
      simp only [hc, bne_iff_ne, ne_eq, not_false_eq_true, beq_iff_eq, if_true,
        Bool.not_eq_true']
      rw [if_pos (by simp [hc]), ih (fun x hx => h x (by simp [hx]))]

theorem messagePrefix_no_newline (m : String) (hm : ∀ ch ∈ m.data, ch ≠ '\n') :
    ∀ ch ∈ ("Message: " ++ m).data, ch ≠ '\n' := by
  intro ch hch
  rw [String.data_append] at hch
  rcases List.mem_append.mp hch with h1 | h2
  · have hlit : ∀ x ∈ ("Message: " : String).data, x ≠ '\n' := by decide
    exact hlit ch h1
  · exact hm ch h2

theorem firstLine_record (m c : String) (hm : ∀ ch ∈ m.data, ch ≠ '\n') :
    firstLine ("Message: " ++ m ++ "\n" ++ c) = "Message: " ++ m := by
  unfold firstLine
  have hdata : ("Message: " ++ m ++ "\n" ++ c).data
      = ("Message: " ++ m).data ++ '\n' :: c.data := by
    repeat rw [String.data_append]
    rw [List.append_assoc]
    rfl
  rw [hdata, takeWhile_newline _ _ (messagePrefix_no_newline m hm)]

namespace MiniGit

/-- A step-unfolding equation for `logEntries`. -/
theorem logEntries_cons (fs : FS) (line : String) (rest : List String) :
    logEntries fs (line :: rest) =
      match FS.read fs (objPath (pyStrip line)) with
      | none => none
      | some record =>
          match logEntries fs rest with
          | none => none
          | some es => some ((pyStrip line, pyStrip (firstLine record)) :: es) := rfl

theorem logEntries_of_objs (fs : FS) (hist : List (String × String))
    (objs : ∀ e ∈ hist,
      FS.read fs (objPath (sha1hexStr e.1)) = some ("Message: " ++ e.2 ++ "\n" ++ e.1))
    (hmsg : ∀ e ∈ hist, MsgOk e.2) :
    logEntries fs (hist.map (fun e => sha1hexStr e.1)) =
      some (hist.map (fun e => (sha1hexStr e.1, "Message: " ++ e.2))) := by
  induction hist with
  | nil => rfl
  | cons e rest ih =>
      rw [List.map_cons, logEntries_cons, pyStrip_sha1hexStr, objs e (by simp),
        ih (fun x hx => objs x (by simp [hx])) (fun x hx => hmsg x (by simp [hx]))]
      show some _ = _
      rw [firstLine_record e.2 e.1 (hmsg e (by simp)).1, (hmsg e (by simp)).2]
      simp

theorem log_of_goodLog (fs : FS) (hist : List (String × String)) (gl : GoodLog fs hist)
    (hmsg : ∀ e ∈ hist, MsgOk e.2) :
    log fs = if hist.isEmpty then .noCommits
      else .history (hist.map (fun e => (sha1hexStr e.1, "Message: " ++ e.2))) := by
  unfold log
  rw [gl.headOk]
  show (match FS.read fs (refsPath (pyStrip "main\n")) with
    | none => LogResult.noCommits
    | some refContent =>
        match logEntries fs (pyLines refContent) with
        | none => LogResult.objectMissing
        | some es => LogResult.history es) = _
  rw [(by decide : pyStrip "main\n" = "main"), gl.refsOk]
  by_cases he : hist.isEmpty
  · rw [if_pos he, if_pos he]
  · rw [if_neg he, if_neg he]
    show (match logEntries fs (pyLines (refLogContent hist)) with
      | none => LogResult.objectMissing
      | some es => LogResult.history es) = _
    rw [pyLines_refLog, logEntries_of_objs fs hist gl.objsOk hmsg]

end MiniGit

/-! ## Lookup through appended and copied file lists -/

theorem lookupFile_append_some {l1 l2 : List (String × String)} {k v : String}
    (h : lookupFile l1 k = some v) : lookupFile (l1 ++ l2) k = some v := by
  rw [lookupFile_append, h]

theorem lookupFile_append_none {l1 l2 : List (String × String)} {k : String}
    (h : lookupFile l1 k = none) : lookupFile (l1 ++ l2) k = lookupFile l2 k := by
  rw [lookupFile_append, h]

theorem data_ne_nil_of_ne_empty {t : String} (h : t ≠ "") : t.data ≠ [] := by
  intro hd
  exact h (stringDataInj hd)

theorem append_ne_empty_left (t x : String) (h : t ≠ "") : t ++ x ≠ "" := by
  intro e
  have hd := congrArg String.data e
  rw [String.data_append] at hd
  rcases List.append_eq_nil.mp hd with ⟨h1, _⟩
  exact data_ne_nil_of_ne_empty h h1

theorem append_head (t x : String) (h : t ≠ "") :
    (t ++ x).data.head? = t.data.head? := by
  rw [String.data_append]
  exact List.head?_append_of_ne_nil _ (data_ne_nil_of_ne_empty h)

theorem copied_key_head (t a b : String) (ht : t ≠ "") :
    (t ++ "/" ++ a ++ "/" ++ b).data.head? = t.data.head? := by
  have h1 : t ++ "/" ≠ "" := append_ne_empty_left _ _ ht
  have h2 : t ++ "/" ++ a ≠ "" := append_ne_empty_left _ _ h1
  have h3 : t ++ "/" ++ a ++ "/" ≠ "" := append_ne_empty_left _ _ h2
  rw [append_head _ b h3, append_head _ "/" h2, append_head _ a h1, append_head _ "/" ht]

namespace MiniGit

theorem copyFiles_cons (dst k0 v0 : String) (rest : List (String × String)) :
    copyFiles dst ((k0, v0) :: rest) =
      match dropPre ".minigit/".data k0.data with
      | some r => (dst ++ "/" ++ String.mk r, v0) :: copyFiles dst rest
      | none => copyFiles dst rest := rfl

theorem lookupFile_copyFiles_none (dst k : String) (l : List (String × String))
    (hk : ∀ r : List Char, dst ++ "/" ++ String.mk r ≠ k) :
    lookupFile (copyFiles dst l) k = none := by
  induction l with
  | nil => rfl
  | cons kv rest ih =>
      obtain ⟨k0, v0⟩ := kv
      rw [copyFiles_cons]
      cases hd : dropPre ".minigit/".data k0.data with
      | none => exact ih
      | some r =>
          show lookupFile ((dst ++ "/" ++ String.mk r, v0) :: copyFiles dst rest) k = none
          unfold lookupFile
          rw [if_neg (fun e => hk r e.symm)]
          exact ih

section SymbolicProofs

attribute [local irreducible] sha1 sha1hex sha1hexStr strBytes

theorem goodLog_init : GoodLog (init emptyFS).1 [] := by
  refine ⟨by decide, by decide, ?_, by decide⟩
  intro e he
  simp at he

theorem goodLog_envWrite {fs : FS} {hist : List (String × String)}
    (gl : GoodLog fs hist) (p c : String)
    (hp : strStartsWith ".minigit" p = false) : GoodLog (FS.write fs p c) hist := by
  have hne : ∀ k : String, strStartsWith ".minigit" k = true →
      FS.read (FS.write fs p c) k = FS.read fs k := by
    intro k hk
    rw [FS.read_write, if_neg (ne_of_strStartsWith hp hk).symm]
  refine ⟨?_, ?_, ?_, gl.dirOk⟩
  · rw [hne headFile (by decide)]; exact gl.headOk
  · rw [hne (refsPath "main") (by decide)]; exact gl.refsOk
  · intro e he
    rw [hne _ (strStartsWith_objPath _)]
    exact gl.objsOk e he

theorem goodLog_add {fs : FS} {hist : List (String × String)}
    (gl : GoodLog fs hist) (p : String) : GoodLog (add fs p).1 hist := by
  by_cases hex : FS.pathExists fs p = false
  · rw [add_fileNotFound fs p hex]; exact gl
  · rcases hr : FS.read fs p with _ | content
    · have : add fs p = (fs, .openFailed) := by simp [add, hex, hr]
      rw [this]; exact gl
    · rw [add_run fs p content hr]
      show GoodLog (FS.append _ indexFile _) hist
      have h2 : ∀ k v : String, FS.read fs k = some v →
          FS.read (if FS.pathExists fs (objPath (sha1hexStr content)) then fs
            else FS.write fs (objPath (sha1hexStr content)) content) k = some v := by
        intro k v hv
        by_cases hb : FS.pathExists fs (objPath (sha1hexStr content))
        · rw [if_pos hb]; exact hv
        · rw [if_neg hb, FS.read_write]
          rw [if_neg ?_]
          · exact hv
          · intro e
            rw [e, FS.read_none_of_pathExists_false (by simpa using hb)] at hv
            exact Option.noConfusion hv
      have h3 : ∀ k : String, k ≠ objPath (sha1hexStr content) →
          FS.read (if FS.pathExists fs (objPath (sha1hexStr content)) then fs
            else FS.write fs (objPath (sha1hexStr content)) content) k = FS.read fs k := by
        intro k hk
        by_cases hb : FS.pathExists fs (objPath (sha1hexStr content))
        · rw [if_pos hb]
        · rw [if_neg hb, FS.read_write, if_neg hk]
      refine ⟨?_, ?_, ?_, ?_⟩
      · rw [FS.read_append_ne _ _ _ _ (by decide),
          h3 headFile (objPath_ne_headFile _).symm]
        exact gl.headOk
      · rw [FS.read_append_ne _ _ _ _ (refsPath_ne_indexFile "main"),
          h3 (refsPath "main") (objPath_ne_refsPath _ _).symm]
        exact gl.refsOk
      · intro e he
        rw [FS.read_append_ne _ _ _ _ (objPath_ne_indexFile _)]
        exact h2 _ _ (gl.objsOk e he)
      · show repoDir ∈ (FS.append _ indexFile _).dirs
        rw [FS.dirs_append]
        by_cases hb : FS.pathExists fs (objPath (sha1hexStr content))
        · rw [if_pos hb]; exact gl.dirOk
        · rw [if_neg hb]; exact gl.dirOk

theorem goodLog_commit {fs : FS} {hist : List (String × String)}
    (gl : GoodLog fs hist) (m c : String)
    (hc : FS.read fs indexFile = some c) (hne : c ≠ "")
    (hfresh : sha1hexStr c ∉ hist.map (fun e => sha1hexStr e.1)) :
    GoodLog (commit fs m).1 (hist ++ [(c, m)]) := by
  rw [commit_run fs m c "main\n" hc hne gl.headOk,
    (by decide : pyStrip "main\n" = "main")]
  show GoodLog (FS.write (FS.append (FS.write fs (objPath (sha1hexStr c))
    ("Message: " ++ m ++ "\n" ++ c)) (refsPath "main") (sha1hexStr c ++ "\n"))
    indexFile "") (hist ++ [(c, m)])
  refine ⟨?_, ?_, ?_, gl.dirOk⟩
  · rw [FS.read_write, if_neg (by decide : ¬ headFile = indexFile),
      FS.read_append_ne _ _ _ _ (refsPath_ne_headFile "main").symm,
      FS.read_write, if_neg (objPath_ne_headFile _).symm]
    exact gl.headOk
  · rw [FS.read_write, if_neg (refsPath_ne_indexFile "main"),
      FS.read_append_eq, FS.read_write, if_neg (objPath_ne_refsPath _ _).symm]
    rw [gl.refsOk]
    by_cases he : hist.isEmpty
    · rw [if_pos he]
      have : hist = [] := List.isEmpty_iff.mp he
      subst this
      rw [if_neg (by simp)]
      show some ("" ++ (sha1hexStr c ++ "\n")) = some (refLogContent [(c, m)])
      rw [String.empty_append]
      show _ = some (sha1hexStr c ++ "\n" ++ "")
      rw [String.append_empty]
    · rw [if_neg he, if_neg (by simp)]
      show some (refLogContent hist ++ (sha1hexStr c ++ "\n")) = _
      rw [refLogContent_append hist (c, m)]
  · intro e he
    rcases List.mem_append.mp he with hmem | hmem
    · have hne2 : sha1hexStr e.1 ≠ sha1hexStr c := by
        intro hcol
        apply hfresh
        rw [← hcol]
        exact List.mem_map_of_mem (fun x => sha1hexStr x.1) hmem
      rw [FS.read_write, if_neg (objPath_ne_indexFile _),
        FS.read_append_ne _ _ _ _ (objPath_ne_refsPath _ _),
        FS.read_write, if_neg (fun hp => hne2 (objPath_inj hp))]
      exact gl.objsOk e hmem
    · have : e = (c, m) := by simpa using hmem
      subst this
      rw [FS.read_write, if_neg (objPath_ne_indexFile _),
        FS.read_append_ne _ _ _ _ (objPath_ne_refsPath _ _),
        FS.read_write, if_pos rfl]

theorem pathExists_of_dir_mem {fs : FS} {p : String} (h : p ∈ fs.dirs) :
    FS.pathExists fs p = true := by
  unfold FS.pathExists
  have : fs.dirs.contains p = true := by simpa using h
  rw [this, Bool.or_true]

theorem goodLog_clone {fs : FS} {hist : List (String × String)}
    (gl : GoodLog fs hist) (t : String)
    (ht : t.data.head? ≠ some '.') : GoodLog (clone fs t).1 hist := by
  unfold clone
  by_cases h1 : FS.pathExists fs t = true
  · rw [if_pos h1]; exact gl
  · rw [if_neg h1, if_neg (by rw [pathExists_of_dir_mem gl.dirOk]; exact fun h => Bool.noConfusion h)]
    by_cases ht0 : t = ""
    · subst ht0
      have : pyJoin "" repoDir = repoDir := by simp [pyJoin]
      rw [this, if_pos (pathExists_of_dir_mem gl.dirOk)]
      exact gl
    · have hdst : pyJoin t repoDir = t ++ "/" ++ repoDir := by simp [pyJoin, ht0]
      by_cases h2 : FS.pathExists fs (pyJoin t repoDir) = true
      · rw [if_pos h2]; exact gl
      · rw [if_neg h2]
        have hcopy : ∀ k : String, k.data.head? = some '.' →
            lookupFile (copyFiles (pyJoin t repoDir) fs.files) k = none := by
          intro k hk
          apply lookupFile_copyFiles_none
          intro r e
          apply ht
          have hh : (pyJoin t repoDir ++ "/" ++ String.mk r).data.head? = t.data.head? := by
            rw [hdst]
            exact copied_key_head t repoDir (String.mk r) ht0
          rw [e, hk] at hh
          exact hh.symm
        refine ⟨?_, ?_, ?_, ?_⟩
        · exact lookupFile_append_some gl.headOk
        · by_cases he : hist.isEmpty
          · have hrefs := gl.refsOk
            rw [if_pos he] at hrefs ⊢
            show lookupFile (fs.files ++ _) (refsPath "main") = none
            rw [lookupFile_append_none hrefs]
            exact hcopy _ (by decide)
          · have hrefs := gl.refsOk
            rw [if_neg he] at hrefs ⊢
            exact lookupFile_append_some hrefs
        · intro e he
          exact lookupFile_append_some (gl.objsOk e he)
        · exact List.mem_append_left _ gl.dirOk

theorem goodLog_of_reach {fs : FS} {hist : List (String × String)} (h : Reach fs hist) :
    (hist.map (fun e => sha1hexStr e.1)).Nodup → GoodLog fs hist := by
  induction h with
  | repoInit => exact fun _ => goodLog_init
  | envWrite p c h hp ih => exact fun hnd => goodLog_envWrite (ih hnd) p c hp
  | stepAdd p h ih => exact fun hnd => goodLog_add (ih hnd) p
  | stepCommit m c h hc hne ih =>
      intro hnd
      rw [List.map_append] at hnd
      rw [List.nodup_append] at hnd
      obtain ⟨hnd1, _, hdisj⟩ := hnd
      exact goodLog_commit (ih hnd1) m c hc hne
        (fun hmem => hdisj hmem (by simp))
  | stepClone t h ht ih => exact fun hnd => goodLog_clone (ih hnd) t ht

end SymbolicProofs

end MiniGit

/-! ## How each operation treats an already-stored object -/

section StorePreservation

attribute [local irreducible] sha1 sha1hex sha1hexStr strBytes

theorem string_append_left_cancel {a b c : String} (h : a ++ b = a ++ c) : b = c := by
  have hd := congrArg String.data h
  rw [String.data_append, String.data_append] at hd
  exact stringDataInj (List.append_cancel_left hd)

namespace MiniGit

theorem add_read_some {fs : FS} (p : String) {k v : String}
    (hsome : FS.read fs k = some v) (hk : k ≠ indexFile) :
    FS.read (add fs p).1 k = some v := by
  by_cases hex : FS.pathExists fs p = false
  · rw [add_fileNotFound fs p hex]; exact hsome
  · rcases hr : FS.read fs p with _ | content
    · have : add fs p = (fs, .openFailed) := by simp [add, hex, hr]
      rw [this]; exact hsome
    · rw [add_run fs p content hr]
      show FS.read (FS.append _ indexFile _) k = some v
      rw [FS.read_append_ne _ _ _ _ hk]
      by_cases hb : FS.pathExists fs (objPath (sha1hexStr content))
      · rw [if_pos hb]; exact hsome
      · rw [if_neg hb, FS.read_write]
        rw [if_neg ?_]
        · exact hsome
        · intro e
          rw [e, FS.read_none_of_pathExists_false (by simpa using hb)] at hsome
          exact Option.noConfusion hsome

theorem commit_read_some {fs : FS} (m : String) {k v : String}
    (hsome : FS.read fs k = some v) (hk1 : k ≠ indexFile)
    (hk2 : ∀ b, k ≠ refsPath b)
    (hk3 : ∀ c, FS.read fs indexFile = some c → k ≠ objPath (sha1hexStr c)) :
    FS.read (commit fs m).1 k = some v := by
  rcases hr : FS.read fs indexFile with _ | c
  · rw [commit_noIndex fs m hr]; exact hsome
  · by_cases hc : c = ""
    · subst hc; rw [commit_emptyIndex fs m hr]; exact hsome
    · rcases hh : FS.read fs headFile with _ | hcont
      · have hh1 : FS.read (FS.write fs (objPath (sha1hexStr c))
            ("Message: " ++ m ++ "\n" ++ c)) headFile = none := by
          rw [FS.read_write, if_neg (objPath_ne_headFile _).symm]; exact hh
        have hcm : commit fs m = (FS.write fs (objPath (sha1hexStr c))
            ("Message: " ++ m ++ "\n" ++ c), .headMissing) := by
          simp [commit, hr, hc, hh1]
        rw [hcm]
        show FS.read (FS.write fs _ _) k = some v
        rw [FS.read_write, if_neg (hk3 c hr)]
        exact hsome
      · rw [commit_run fs m c hcont hr hc hh]
        show FS.read (FS.write (FS.append (FS.write fs _ _) _ _) indexFile "") k = some v
        rw [FS.read_write, if_neg hk1, FS.read_append_ne _ _ _ _ (hk2 _),
          FS.read_write, if_neg (hk3 c hr)]
        exact hsome

theorem clone_read_some {fs : FS} (t : String) {k v : String}
    (hsome : FS.read fs k = some v) : FS.read (clone fs t).1 k = some v := by
  unfold clone
  by_cases h1 : FS.pathExists fs t = true
  · rw [if_pos h1]; exact hsome
  · rw [if_neg h1]
    by_cases h2 : FS.pathExists fs repoDir = false
    · rw [if_pos h2]; exact hsome
    · rw [if_neg h2]
      by_cases h3 : FS.pathExists fs (pyJoin t repoDir) = true
      · rw [if_pos h3]; exact hsome
      · rw [if_neg h3]
        exact lookupFile_append_some hsome

end MiniGit

/-! ## Counting object-store entries -/

theorem countP_zero_of_lookup_none (l : List (String × String)) (K : String)
    (h : lookupFile l K = none) :
    l.countP (fun kv => decide (kv.1 = K)) = 0 := by
  induction l with
  | nil => rfl
  | cons kv rest ih =>
      obtain ⟨k0, v0⟩ := kv
      by_cases hk : K = k0
      · simp [lookupFile, hk] at h
      · simp only [lookupFile, hk, if_false] at h
        rw [List.countP_cons]
        have hne : ¬ k0 = K := fun e => hk e.symm
        simp [ih h, hne]

theorem countP_setFile_ne (l : List (String × String)) (k v K : String) (hne : k ≠ K) :
    (setFile l k v).countP (fun kv => decide (kv.1 = K)) =
      l.countP (fun kv => decide (kv.1 = K)) := by
  induction l with
  | nil => simp [setFile, List.countP_cons, hne]
  | cons kv0 rest ih =>
      obtain ⟨k0, v0⟩ := kv0
      by_cases hk : k = k0
      · subst hk
        simp [setFile, List.countP_cons]
      · simp only [setFile, hk, if_false]
        rw [List.countP_cons, List.countP_cons, ih]

theorem countP_setFile_fresh (l : List (String × String)) (K v : String)
    (h : lookupFile l K = none) :
    (setFile l K v).countP (fun kv => decide (kv.1 = K)) = 1 := by
  rw [setFile_of_lookup_none l K v h, List.countP_append, countP_zero_of_lookup_none l K h]
  simp [List.countP_cons]

/-! ## What `copytree` places under the clone destination -/

theorem strStartsWith_of_data {pre s : String} (x : List Char) (h : s.data = pre.data ++ x) :
    strStartsWith pre s = true := by
  unfold strStartsWith
  rw [h, (dropPre_some_iff pre.data _ x).mpr rfl]
  rfl

theorem strStartsWith_prefix3 (a b c d : String) :
    strStartsWith a (a ++ b ++ c ++ d) = true := by
  rw [String.append_assoc, String.append_assoc]
  exact strStartsWith_append _ _

theorem lookupFile_some_mem {l : List (String × String)} {k v : String}
    (h : lookupFile l k = some v) : (k, v) ∈ l := by
  induction l with
  | nil => simp [lookupFile] at h
  | cons kv rest ih =>
      obtain ⟨k0, v0⟩ := kv
      by_cases hk : k = k0
      · subst hk
        simp only [lookupFile, if_pos rfl] at h
        cases Option.some.inj h
        exact List.mem_cons_self _ _
      · simp only [lookupFile, hk, if_false] at h
        exact List.mem_cons_of_mem _ (ih h)

namespace MiniGit

theorem lookupFile_cons (k0 v0 : String) (rest : List (String × String)) (p : String) :
    lookupFile ((k0, v0) :: rest) p = if p = k0 then some v0 else lookupFile rest p := rfl

theorem lookupFile_copyFiles (dst : String) (l : List (String × String)) (q : String) :
    lookupFile (copyFiles dst l) (dst ++ "/" ++ q) = lookupFile l (".minigit/" ++ q) := by
  induction l with
  | nil => rfl
  | cons kv rest ih =>
      obtain ⟨k0, v0⟩ := kv
      rw [copyFiles_cons]
      cases hd : dropPre ".minigit/".data k0.data with
      | none =>
          have hne : (".minigit/" ++ q) ≠ k0 := by
            intro e
            refine dropPre_none_ne ".minigit/".data k0.data hd q.data ?_
            rw [← e, String.data_append]
          show lookupFile (copyFiles dst rest) _ = lookupFile ((k0, v0) :: rest) _
          rw [lookupFile_cons, if_neg hne]
          exact ih
      | some r =>
          have hk0 : k0.data = ".minigit/".data ++ r := (dropPre_some_iff _ _ _).mp hd
          show lookupFile ((dst ++ "/" ++ String.mk r, v0) :: copyFiles dst rest) _ =
            lookupFile ((k0, v0) :: rest) _
          rw [lookupFile_cons, lookupFile_cons]
          by_cases hq : q.data = r
          · have hq' : q = String.mk r := stringDataInj hq
            rw [if_pos (by rw [hq']), if_pos (stringDataInj (by
              rw [String.data_append, hk0, hq]))]
          · rw [if_neg ?_, if_neg ?_]
            · exact ih
            · intro e
              have hd2 := congrArg String.data e
              rw [String.data_append, hk0] at hd2
              exact hq (List.append_cancel_left hd2)
            · intro e
              have := string_append_left_cancel e
              rw [this] at hq
              exact hq rfl

end MiniGit

theorem append_ne_empty_right (a x : String) (hx : x ≠ "") : a ++ x ≠ "" := by
  intro e
  have hd := congrArg String.data e
  rw [String.data_append] at hd
  rcases List.append_eq_nil.mp hd with ⟨_, h2⟩
  exact data_ne_nil_of_ne_empty hx h2

theorem line_no_newline (p h : String) (hp : ∀ ch ∈ p.data, ch ≠ '\n')
    (hh : ∀ ch ∈ h.data, ch ≠ '\n') : ∀ ch ∈ (p ++ " " ++ h).data, ch ≠ '\n' := by
  intro ch hch
  rw [String.data_append, String.data_append] at hch
  rcases List.mem_append.mp hch with hch | hch
  · rcases List.mem_append.mp hch with hch | hch
    · exact hp ch hch
    · simp at hch
      subst hch
      decide
  · exact hh ch hch

/-! ## The claims -/

/-- C1 (amended): staged blobs are written only when absent, so `add`
never overwrites or updates an existing object-store entry, and neither
does `clone` (`log` does not write at all, as its embedding
`MiniGit.log : FS → LogResult` shows).  `commit`, however, writes the
commit record unconditionally: it preserves every object-store entry
except possibly the one under the new commit identifier (the digest of
the current index content), which it overwrites. -/
theorem C1_store_overwrites (fs : FS) (p t m h v : String)
    (hv : FS.read fs (MiniGit.objPath h) = some v) :
    FS.read (MiniGit.add fs p).1 (MiniGit.objPath h) = some v ∧
    FS.read (MiniGit.clone fs t).1 (MiniGit.objPath h) = some v ∧
    ((∀ c, FS.read fs MiniGit.indexFile = some c → h ≠ sha1hexStr c) →
      FS.read (MiniGit.commit fs m).1 (MiniGit.objPath h) = some v) := by
  refine ⟨?_, ?_, ?_⟩
  · exact MiniGit.add_read_some p hv (objPath_ne_indexFile h)
  · exact MiniGit.clone_read_some t hv
  · intro hne
    exact MiniGit.commit_read_some m hv (objPath_ne_indexFile h)
      (fun b => objPath_ne_refsPath h b)
      (fun c hc e => hne c hc (objPath_inj e))

/-- C2 (confirmed): a successful commit's identifier is the SHA-1 digest
of the serialized index content alone — the message plays no part — so
two successful commits over byte-identical index contents receive the
same identifier even under different messages. -/
theorem C2_commit_id_ignores_message (fs1 fs2 : FS) (m1 m2 i1 i2 : String)
    (h1 : (MiniGit.commit fs1 m1).2 = .committed i1)
    (h2 : (MiniGit.commit fs2 m2).2 = .committed i2)
    (hsame : FS.read fs1 MiniGit.indexFile = FS.read fs2 MiniGit.indexFile) :
    i1 = i2 ∧ (∀ c, FS.read fs1 MiniGit.indexFile = some c → i1 = sha1hexStr c) := by
  obtain ⟨c1, hc1, _, hi1⟩ := MiniGit.commit_committed_inv fs1 m1 i1 h1
  obtain ⟨c2, hc2, _, hi2⟩ := MiniGit.commit_committed_inv fs2 m2 i2 h2
  constructor
  · rw [hc1, hc2] at hsame
    cases Option.some.inj hsame
    rw [hi1, hi2]
  · intro c hc
    rw [hc1] at hc
    cases Option.some.inj hc
    exact hi1

/-- C3 (confirmed): from any state whose staging index exists and is
non-empty, whose `HEAD` exists, and whose active reference log is
well-formed (absent, empty, or newline-terminated — true of every state
the program itself produces), `commit` succeeds, leaves the staging
index empty, and appends exactly the new identifier at the end of the
active branch's reference log. -/
theorem C3_commit_clears_index_appends_ref (fs : FS) (m c hc : String)
    (hidx : FS.read fs MiniGit.indexFile = some c) (hne : c ≠ "")
    (hhead : FS.read fs MiniGit.headFile = some hc)
    (hwf : (FS.read fs (MiniGit.refsPath (pyStrip hc))).getD "" = "" ∨
      ∃ s0, ((FS.read fs (MiniGit.refsPath (pyStrip hc))).getD "").data = s0 ++ ['\n']) :
    (MiniGit.commit fs m).2 = .committed (sha1hexStr c) ∧
    FS.read (MiniGit.commit fs m).1 MiniGit.indexFile = some "" ∧
    pyLines ((FS.read (MiniGit.commit fs m).1 (MiniGit.refsPath (pyStrip hc))).getD "") =
      pyLines ((FS.read fs (MiniGit.refsPath (pyStrip hc))).getD "") ++ [sha1hexStr c] := by
  rw [MiniGit.commit_run fs m c hc hidx hne hhead]
  refine ⟨rfl, ?_, ?_⟩
  · show FS.read (FS.write _ MiniGit.indexFile "") MiniGit.indexFile = some ""
    rw [FS.read_write, if_pos rfl]
  · show pyLines ((FS.read (FS.write _ MiniGit.indexFile "")
      (MiniGit.refsPath (pyStrip hc))).getD "") = _
    rw [FS.read_write, if_neg (refsPath_ne_indexFile _), FS.read_append_eq,
      FS.read_write, if_neg (objPath_ne_refsPath _ _).symm, Option.getD_some,
      ← String.append_assoc]
    exact pyLines_append_line _ _ hwf (sha1hexStr_ne_empty c) (sha1hexStr_no_newline c)

/-- C4 (confirmed): when the staging index is empty — whether the index
file exists with zero size or does not exist at all — `commit` reports
`NothingToCommit` and returns the whole repository state unchanged
(object store, reference logs, everything). -/
theorem C4_commit_empty_index (fs : FS) (m : String)
    (h : FS.read fs MiniGit.indexFile = some "" ∨ FS.read fs MiniGit.indexFile = none) :
    MiniGit.commit fs m = (fs, .nothingToCommit) := by
  rcases h with h | h
  · exact MiniGit.commit_emptyIndex fs m h
  · exact MiniGit.commit_noIndex fs m h

/-- C5 (confirmed): staging a file with content `c` while no blob is
stored under the digest of `c` creates exactly one object-store entry
for `c`; staging a second file with the same content leaves the whole
object store untouched (the write is skipped), so exactly one stored
blob for `c` remains. -/
theorem C5_dedup (fs : FS) (p1 p2 c : String)
    (h1 : FS.read fs p1 = some c)
    (hfresh : FS.pathExists fs (MiniGit.objPath (sha1hexStr c)) = false)
    (h2 : FS.read (MiniGit.add fs p1).1 p2 = some c) :
    FS.read (MiniGit.add fs p1).1 (MiniGit.objPath (sha1hexStr c)) = some c ∧
    ((MiniGit.add fs p1).1).files.countP
      (fun kv => decide (kv.1 = MiniGit.objPath (sha1hexStr c))) = 1 ∧
    (∀ q : String,
      FS.read (MiniGit.add (MiniGit.add fs p1).1 p2).1 (MiniGit.objPath q) =
        FS.read (MiniGit.add fs p1).1 (MiniGit.objPath q)) ∧
    ((MiniGit.add (MiniGit.add fs p1).1 p2).1).files.countP
      (fun kv => decide (kv.1 = MiniGit.objPath (sha1hexStr c))) = 1 := by
  have hn : ¬ (FS.pathExists fs (MiniGit.objPath (sha1hexStr c)) = true) := by
    rw [hfresh]; exact Bool.noConfusion
  have hnone : FS.read fs (MiniGit.objPath (sha1hexStr c)) = none :=
    FS.read_none_of_pathExists_false hfresh
  have hblob1 : FS.read (MiniGit.add fs p1).1 (MiniGit.objPath (sha1hexStr c)) = some c := by
    rw [MiniGit.add_run fs p1 c h1]
    show FS.read (FS.append _ MiniGit.indexFile _) _ = some c
    rw [FS.read_append_ne _ _ _ _ (objPath_ne_indexFile _), if_neg hn,
      FS.read_write, if_pos rfl]
  have hcount1 : ((MiniGit.add fs p1).1).files.countP
      (fun kv => decide (kv.1 = MiniGit.objPath (sha1hexStr c))) = 1 := by
    rw [MiniGit.add_run fs p1 c h1]
    show (FS.append _ MiniGit.indexFile _).files.countP _ = 1
    show (setFile (if FS.pathExists fs (MiniGit.objPath (sha1hexStr c)) then fs
      else FS.write fs (MiniGit.objPath (sha1hexStr c)) c).files MiniGit.indexFile _).countP _ = 1
    rw [countP_setFile_ne _ _ _ _ (objPath_ne_indexFile _).symm, if_neg hn]
    exact countP_setFile_fresh fs.files _ c hnone
  have hb1 : FS.pathExists (MiniGit.add fs p1).1 (MiniGit.objPath (sha1hexStr c)) = true :=
    FS.pathExists_true_of_read hblob1
  refine ⟨hblob1, hcount1, ?_, ?_⟩
  · intro q
    rw [MiniGit.add_run (MiniGit.add fs p1).1 p2 c h2, if_pos hb1]
    show FS.read (FS.append _ MiniGit.indexFile _) _ = _
    rw [FS.read_append_ne _ _ _ _ (objPath_ne_indexFile _)]
  · rw [MiniGit.add_run (MiniGit.add fs p1).1 p2 c h2, if_pos hb1]
    show (setFile ((MiniGit.add fs p1).1).files MiniGit.indexFile _).countP _ = 1
    rw [countP_setFile_ne _ _ _ _ (objPath_ne_indexFile _).symm]
    exact hcount1

/-- C6 (amended): on every reachable repository whose successful commits
have pairwise-distinct serialized index contents (no identifier
collisions) and whose messages contain no newline and survive
`strip()`, `log` yields one entry per reference-log identifier, in
commit order (oldest first) — but each entry's message line is the
stored first line `"Message: " ++ message`, not the bare message
supplied to `commit`. -/
theorem C6_log_order_and_messages (fs : FS) (hist : List (String × String))
    (hreach : MiniGit.Reach fs hist)
    (hnd : (hist.map (fun e => sha1hexStr e.1)).Nodup)
    (hmsg : ∀ e ∈ hist, MiniGit.MsgOk e.2) :
    MiniGit.log fs = if hist.isEmpty then .noCommits
      else .history (hist.map (fun e => (sha1hexStr e.1, "Message: " ++ e.2))) :=
  MiniGit.log_of_goodLog fs hist (MiniGit.goodLog_of_reach hreach hnd) hmsg

/-- C7 (confirmed): `clone` onto an existing target reports
`DestinationExists` and performs no write at all; `clone` onto a fresh,
non-empty target path (with no stale files or directories already under
it — automatic on a real filesystem) of an existing repository
succeeds, places a byte-identical copy of every file under `.minigit`
(object store, index, `HEAD`, reference logs) below the target, and
changes nothing outside the target. -/
theorem C7_clone_full_copy (fs : FS) (t : String) :
    (FS.pathExists fs t = true → MiniGit.clone fs t = (fs, .destinationExists)) ∧
    (FS.pathExists fs t = false → t ≠ "" →
      FS.pathExists fs MiniGit.repoDir = true →
      (∀ kv ∈ fs.files, strStartsWith (t ++ "/") kv.1 = false) →
      (∀ d ∈ fs.dirs, strStartsWith (t ++ "/") d = false) →
      (MiniGit.clone fs t).2 = .cloned ∧
      (∀ q : String,
        FS.read (MiniGit.clone fs t).1 (pyJoin t MiniGit.repoDir ++ "/" ++ q) =
          FS.read fs (MiniGit.repoDir ++ "/" ++ q)) ∧
      (∀ p : String, strStartsWith (t ++ "/") p = false →
        FS.read (MiniGit.clone fs t).1 p = FS.read fs p)) := by
  constructor
  · intro h
    unfold MiniGit.clone
    rw [if_pos h]
  · intro h1 ht0 h2 hfiles hdirs
    have hdst : pyJoin t MiniGit.repoDir = t ++ "/" ++ MiniGit.repoDir := by
      simp [pyJoin, ht0]
    have hdstStarts : strStartsWith (t ++ "/") (pyJoin t MiniGit.repoDir) = true := by
      rw [hdst]
      exact strStartsWith_append (t ++ "/") MiniGit.repoDir
    have hkeyStarts : ∀ x : String,
        strStartsWith (t ++ "/") (pyJoin t MiniGit.repoDir ++ "/" ++ x) = true := by
      intro x
      rw [hdst]
      exact strStartsWith_prefix3 (t ++ "/") MiniGit.repoDir "/" x
    have h3 : FS.pathExists fs (pyJoin t MiniGit.repoDir) = false := by
      unfold FS.pathExists
      have hread : FS.read fs (pyJoin t MiniGit.repoDir) = none := by
        cases hride : FS.read fs (pyJoin t MiniGit.repoDir) with
        | none => rfl
        | some v =>
            have hc := hfiles _ (lookupFile_some_mem hride)
            exact absurd (hc.symm.trans hdstStarts) Bool.noConfusion
      have hdir : fs.dirs.contains (pyJoin t MiniGit.repoDir) = false := by
        by_cases hmem : pyJoin t MiniGit.repoDir ∈ fs.dirs
        · exact absurd ((hdirs _ hmem).symm.trans hdstStarts) Bool.noConfusion
        · simpa using hmem
      rw [hread, hdir]
      rfl
    unfold MiniGit.clone
    rw [if_neg (by rw [h1]; exact Bool.noConfusion),
      if_neg (by rw [h2]; exact Bool.noConfusion),
      if_neg (by rw [h3]; exact Bool.noConfusion)]
    refine ⟨rfl, ?_, ?_⟩
    · intro q
      show lookupFile (fs.files ++ MiniGit.copyFiles (pyJoin t MiniGit.repoDir) fs.files)
        (pyJoin t MiniGit.repoDir ++ "/" ++ q) = _
      have hl : lookupFile fs.files (pyJoin t MiniGit.repoDir ++ "/" ++ q) = none := by
        cases hride : lookupFile fs.files (pyJoin t MiniGit.repoDir ++ "/" ++ q) with
        | none => rfl
        | some v =>
            have hc := hfiles _ (lookupFile_some_mem hride)
            exact absurd (hc.symm.trans (hkeyStarts q)) Bool.noConfusion
      rw [lookupFile_append_none hl, MiniGit.lookupFile_copyFiles]
      rfl
    · intro p hp
      show lookupFile (fs.files ++ MiniGit.copyFiles (pyJoin t MiniGit.repoDir) fs.files) p =
        lookupFile fs.files p
      cases hride : lookupFile fs.files p with
      | some v => rw [lookupFile_append_some hride]
      | none =>
          rw [lookupFile_append_none hride,
            MiniGit.lookupFile_copyFiles_none _ _ _ (fun r e => by
              rw [← e] at hp
              exact Bool.noConfusion ((hkeyStarts (String.mk r)).symm.trans hp))]

/-- C8 (confirmed): staging a path that does not exist in the working
area reports `FileNotFound` and returns the repository state — staging
index and object store included — entirely unchanged. -/
theorem C8_add_missing_path (fs : FS) (p : String)
    (h : FS.pathExists fs p = false) :
    MiniGit.add fs p = (fs, .fileNotFound) :=
  MiniGit.add_fileNotFound fs p h

/-- C9 (confirmed): `add` appends and never replaces: staging the same
path twice with the same content leaves the earlier entry in place and
adds a second, identical `"<path> <hash>"` line, so the index — and
hence the next commit's serialized snapshot — carries two entries for
the path with the same blob hash. -/
theorem C9_add_appends_duplicate (fs : FS) (p c : String)
    (h1 : FS.read fs p = some c)
    (h2 : FS.read (MiniGit.add fs p).1 p = some c)
    (hp : ∀ ch ∈ p.data, ch ≠ '\n')
    (hwf : (FS.read fs MiniGit.indexFile).getD "" = "" ∨
      ∃ s0, ((FS.read fs MiniGit.indexFile).getD "").data = s0 ++ ['\n']) :
    (MiniGit.add (MiniGit.add fs p).1 p).2 = .staged (sha1hexStr c) ∧
    FS.read (MiniGit.add (MiniGit.add fs p).1 p).1 MiniGit.indexFile =
      some ((FS.read fs MiniGit.indexFile).getD ""
        ++ (p ++ " " ++ sha1hexStr c ++ "\n") ++ (p ++ " " ++ sha1hexStr c ++ "\n")) ∧
    pyLines ((FS.read (MiniGit.add (MiniGit.add fs p).1 p).1 MiniGit.indexFile).getD "") =
      pyLines ((FS.read fs MiniGit.indexFile).getD "")
        ++ [p ++ " " ++ sha1hexStr c, p ++ " " ++ sha1hexStr c] := by
  have hline : ∀ ch ∈ (p ++ " " ++ sha1hexStr c).data, ch ≠ '\n' :=
    line_no_newline p (sha1hexStr c) hp (sha1hexStr_no_newline c)
  have hlne : p ++ " " ++ sha1hexStr c ≠ "" :=
    append_ne_empty_right _ _ (sha1hexStr_ne_empty c)
  have hidx1 : FS.read (MiniGit.add fs p).1 MiniGit.indexFile =
      some ((FS.read fs MiniGit.indexFile).getD "" ++ (p ++ " " ++ sha1hexStr c ++ "\n")) := by
    rw [MiniGit.add_run fs p c h1]
    show FS.read (FS.append _ MiniGit.indexFile _) MiniGit.indexFile = _
    rw [FS.read_append_eq]
    by_cases hb : FS.pathExists fs (MiniGit.objPath (sha1hexStr c))
    · rw [if_pos hb]
    · rw [if_neg hb, FS.read_write, if_neg (objPath_ne_indexFile _).symm]
  have hb1 : FS.pathExists (MiniGit.add fs p).1 (MiniGit.objPath (sha1hexStr c)) = true := by
    by_cases hb : FS.pathExists fs (MiniGit.objPath (sha1hexStr c)) = true
    · rw [MiniGit.add_run fs p c h1, if_pos hb]
      show FS.pathExists (FS.append fs MiniGit.indexFile _) _ = true
      unfold FS.pathExists at hb ⊢
      rw [FS.read_append_ne _ _ _ _ (objPath_ne_indexFile _)]
      exact hb
    · have hrd : FS.read (MiniGit.add fs p).1 (MiniGit.objPath (sha1hexStr c)) = some c := by
        rw [MiniGit.add_run fs p c h1, if_neg hb]
        show FS.read (FS.append _ MiniGit.indexFile _) _ = some c
        rw [FS.read_append_ne _ _ _ _ (objPath_ne_indexFile _), FS.read_write, if_pos rfl]
      exact FS.pathExists_true_of_read hrd
  have hstep := MiniGit.add_run (MiniGit.add fs p).1 p c h2
  rw [if_pos hb1] at hstep
  refine ⟨by rw [hstep], ?_, ?_⟩
  · rw [hstep]
    show FS.read (FS.append _ MiniGit.indexFile _) MiniGit.indexFile = _
    rw [FS.read_append_eq, hidx1, Option.getD_some]
  · rw [hstep]
    show pyLines ((FS.read (FS.append _ MiniGit.indexFile _) MiniGit.indexFile).getD "") = _
    rw [FS.read_append_eq, hidx1, Option.getD_some, Option.getD_some]
    have e1 : (FS.read fs MiniGit.indexFile).getD "" ++ (p ++ " " ++ sha1hexStr c ++ "\n")
        = ((FS.read fs MiniGit.indexFile).getD "" ++ (p ++ " " ++ sha1hexStr c)) ++ "\n" :=
      (String.append_assoc _ _ _).symm
    rw [e1]
    have e2 : (((FS.read fs MiniGit.indexFile).getD "" ++ (p ++ " " ++ sha1hexStr c)) ++ "\n")
        ++ (p ++ " " ++ sha1hexStr c ++ "\n")
        = ((((FS.read fs MiniGit.indexFile).getD "" ++ (p ++ " " ++ sha1hexStr c)) ++ "\n")
            ++ (p ++ " " ++ sha1hexStr c)) ++ "\n" :=
      (String.append_assoc _ _ _).symm
    rw [e2]
    rw [pyLines_append_line _ _ (Or.inr ⟨((FS.read fs MiniGit.indexFile).getD ""
      ++ (p ++ " " ++ sha1hexStr c)).data, by rw [String.data_append]⟩) hlne hline]
    rw [pyLines_append_line _ _ hwf hlne hline]
    simp

/-- C10 (confirmed): `commit` treats a missing index file exactly like
an empty one — in both cases it reports `NothingToCommit` without
raising and leaves the state unchanged, so the two situations are
indistinguishable to `commit`. -/
theorem C10_commit_missing_index (fs1 fs2 : FS) (m : String)
    (h1 : FS.read fs1 MiniGit.indexFile = none)
    (h2 : FS.read fs2 MiniGit.indexFile = some "") :
    MiniGit.commit fs1 m = (fs1, .nothingToCommit) ∧
    MiniGit.commit fs2 m = (fs2, .nothingToCommit) :=
  ⟨MiniGit.commit_noIndex fs1 m h1, MiniGit.commit_emptyIndex fs2 m h2⟩

end StorePreservation

/-! ## Concrete evaluations: counterexamples and witnesses -/

set_option maxRecDepth 4000000

/-- C1 counterexample: the demo run stages `a.txt` twice with identical
content and commits twice, so both commits serialize the same index
content and share one identifier; the second `commit` succeeds and
silently replaces the stored commit record's bytes (`Message: first` →
`Message: second`) under that already-existing identifier, refuting the
claim that no operation ever overwrites an existing store entry. -/
theorem C1_counterexample :
    FS.read fsDemo2 (MiniGit.objPath (sha1hexStr icDemo)) =
      some ("Message: first\n" ++ icDemo) ∧
    (MiniGit.commit fsDemo3 "second").2 = .committed (sha1hexStr icDemo) ∧
    FS.read fsDemo4 (MiniGit.objPath (sha1hexStr icDemo)) =
      some ("Message: second\n" ++ icDemo) := by
  refine ⟨by decide, by decide, by decide⟩

/-- C1 witness: the amended statement evaluated on the demo repository. -/
theorem C1_witness :
    FS.read (MiniGit.add fsDemo2 "a.txt").1 (MiniGit.objPath (sha1hexStr "hello")) =
      some "hello" ∧
    FS.read (MiniGit.clone fsDemo2 "backup").1 (MiniGit.objPath (sha1hexStr "hello")) =
      some "hello" ∧
    FS.read (MiniGit.commit fsDemo3 "second").1 (MiniGit.objPath (sha1hexStr "hello")) =
      some "hello" :=
  ⟨(C1_store_overwrites fsDemo2 "a.txt" "x" "m" (sha1hexStr "hello") "hello" (by decide)).1,
   (C1_store_overwrites fsDemo2 "x" "backup" "m" (sha1hexStr "hello") "hello" (by decide)).2.1,
   (C1_store_overwrites fsDemo3 "x" "y" "second" (sha1hexStr "hello") "hello" (by decide)).2.2
     (fun c hc => by
       have hcc : FS.read fsDemo3 MiniGit.indexFile = some icDemo := by decide
       rw [hcc] at hc
       cases Option.some.inj hc
       decide)⟩

/-- C2 witness: committing the demo index content under two different
messages yields the same concrete identifier. -/
theorem C2_witness :
    "d549359ab6397fb84cb11e640ab1474054824621" = sha1hexStr icDemo ∧
    "d549359ab6397fb84cb11e640ab1474054824621" = sha1hexStr icDemo :=
  ⟨(C2_commit_id_ignores_message fsDemo1 fsDemo1 "first" "another message"
      "d549359ab6397fb84cb11e640ab1474054824621" (sha1hexStr icDemo)
      (by decide) (by decide) rfl).1,
   (C2_commit_id_ignores_message fsDemo1 fsDemo1 "first" "another message"
      "d549359ab6397fb84cb11e640ab1474054824621" (sha1hexStr icDemo)
      (by decide) (by decide) rfl).2 icDemo (by decide)⟩

/-- C3 witness: committing the staged demo index clears it and appends
the identifier to the `main` reference log. -/
theorem C3_witness :
    (MiniGit.commit fsDemo1 "first").2 = .committed (sha1hexStr icDemo) ∧
    FS.read (MiniGit.commit fsDemo1 "first").1 MiniGit.indexFile = some "" ∧
    pyLines ((FS.read (MiniGit.commit fsDemo1 "first").1
        (MiniGit.refsPath (pyStrip "main\n"))).getD "") =
      pyLines ((FS.read fsDemo1 (MiniGit.refsPath (pyStrip "main\n"))).getD "")
        ++ [sha1hexStr icDemo] :=
  C3_commit_clears_index_appends_ref fsDemo1 "first" icDemo "main\n"
    (by decide) (by decide) (by decide) (Or.inl (by decide))

/-- C4 witness: committing on a fresh repository (empty index file)
fails with `NothingToCommit` and changes nothing. -/
theorem C4_witness :
    MiniGit.commit (MiniGit.init emptyFS).1 "msg" =
      ((MiniGit.init emptyFS).1, .nothingToCommit) :=
  C4_commit_empty_index (MiniGit.init emptyFS).1 "msg" (Or.inl (by decide))

/-- C5 witness: staging `a.txt` and then `b.txt`, both holding
`"hello"`, stores exactly one blob for `"hello"`. -/
theorem C5_witness :
    FS.read (MiniGit.add fsDemoB "a.txt").1 (MiniGit.objPath (sha1hexStr "hello")) =
      some "hello" ∧
    ((MiniGit.add fsDemoB "a.txt").1).files.countP
      (fun kv => decide (kv.1 = MiniGit.objPath (sha1hexStr "hello"))) = 1 ∧
    FS.read (MiniGit.add (MiniGit.add fsDemoB "a.txt").1 "b.txt").1
        (MiniGit.objPath (sha1hexStr "hello")) =
      FS.read (MiniGit.add fsDemoB "a.txt").1 (MiniGit.objPath (sha1hexStr "hello")) ∧
    ((MiniGit.add (MiniGit.add fsDemoB "a.txt").1 "b.txt").1).files.countP
      (fun kv => decide (kv.1 = MiniGit.objPath (sha1hexStr "hello"))) = 1 :=
  ⟨(C5_dedup fsDemoB "a.txt" "b.txt" "hello" (by decide) (by decide) (by decide)).1,
   (C5_dedup fsDemoB "a.txt" "b.txt" "hello" (by decide) (by decide) (by decide)).2.1,
   (C5_dedup fsDemoB "a.txt" "b.txt" "hello" (by decide) (by decide) (by decide)).2.2.1
     (sha1hexStr "hello"),
   (C5_dedup fsDemoB "a.txt" "b.txt" "hello" (by decide) (by decide) (by decide)).2.2.2⟩

/-- C6 counterexample: after committing with message `"first"`, `log`'s
single entry carries the message line `"Message: first"`, which is not
the supplied message `"first"` — refuting the claim that each entry's
message equals the message given to `commit`. -/
theorem C6_counterexample :
    MiniGit.log fsDemo2 = .history [(sha1hexStr icDemo, "Message: first")] ∧
    "Message: first" ≠ "first" :=
  ⟨by decide, by decide⟩

/-- C6 witness: the amended statement evaluated on the reachable
one-commit demo repository. -/
theorem C6_witness :
    MiniGit.log fsDemo2 =
      if ([(icDemo, "first")] : List (String × String)).isEmpty then .noCommits
      else .history (([(icDemo, "first")] : List (String × String)).map
        (fun e => (sha1hexStr e.1, "Message: " ++ e.2))) := by
  have r0 : MiniGit.Reach (MiniGit.init emptyFS).1 [] := MiniGit.Reach.repoInit
  have r1 : MiniGit.Reach fsDemo0 [] := MiniGit.Reach.envWrite "a.txt" "hello" r0 (by decide)
  have r2 : MiniGit.Reach fsDemo1 [] := MiniGit.Reach.stepAdd "a.txt" r1
  have hreach : MiniGit.Reach fsDemo2 [(icDemo, "first")] :=
    MiniGit.Reach.stepCommit "first" icDemo r2 (by decide) (by decide)
  exact C6_log_order_and_messages fsDemo2 [(icDemo, "first")] hreach (by simp)
    (by
      intro e he
      rw [List.mem_singleton] at he
      subst he
      exact ⟨by decide, by decide⟩)

/-- C7 witness: cloning the demo repository onto an existing path fails
without writes; cloning onto `"backup"` succeeds, reproduces the index
file byte-for-byte under `backup/.minigit`, and leaves `a.txt` alone. -/
theorem C7_witness :
    MiniGit.clone fsDemo2 "a.txt" = (fsDemo2, .destinationExists) ∧
    (MiniGit.clone fsDemo2 "backup").2 = .cloned ∧
    FS.read (MiniGit.clone fsDemo2 "backup").1
        (pyJoin "backup" MiniGit.repoDir ++ "/" ++ "index") =
      FS.read fsDemo2 (MiniGit.repoDir ++ "/" ++ "index") ∧
    FS.read (MiniGit.clone fsDemo2 "backup").1 "a.txt" = FS.read fsDemo2 "a.txt" :=
  ⟨(C7_clone_full_copy fsDemo2 "a.txt").1 (by decide),
   ((C7_clone_full_copy fsDemo2 "backup").2 (by decide) (by decide) (by decide)
     (by decide) (by decide)).1,
   ((C7_clone_full_copy fsDemo2 "backup").2 (by decide) (by decide) (by decide)
     (by decide) (by decide)).2.1 "index",
   ((C7_clone_full_copy fsDemo2 "backup").2 (by decide) (by decide) (by decide)
     (by decide) (by decide)).2.2 "a.txt" (by decide)⟩

/-- C8 witness: staging a missing path on a fresh repository reports
`FileNotFound` and changes nothing. -/
theorem C8_witness :
    MiniGit.add (MiniGit.init emptyFS).1 "missing.txt" =
      ((MiniGit.init emptyFS).1, .fileNotFound) :=
  C8_add_missing_path (MiniGit.init emptyFS).1 "missing.txt" (by decide)

/-- C9 witness: staging `a.txt` twice on the fresh demo repository
leaves two identical index lines with the same blob hash. -/
theorem C9_witness :
    (MiniGit.add (MiniGit.add fsDemo0 "a.txt").1 "a.txt").2 = .staged (sha1hexStr "hello") ∧
    FS.read (MiniGit.add (MiniGit.add fsDemo0 "a.txt").1 "a.txt").1 MiniGit.indexFile =
      some ((FS.read fsDemo0 MiniGit.indexFile).getD ""
        ++ ("a.txt" ++ " " ++ sha1hexStr "hello" ++ "\n")
        ++ ("a.txt" ++ " " ++ sha1hexStr "hello" ++ "\n")) ∧
    pyLines ((FS.read (MiniGit.add (MiniGit.add fsDemo0 "a.txt").1 "a.txt").1
        MiniGit.indexFile).getD "") =
      pyLines ((FS.read fsDemo0 MiniGit.indexFile).getD "")
        ++ ["a.txt" ++ " " ++ sha1hexStr "hello", "a.txt" ++ " " ++ sha1hexStr "hello"] :=
  C9_add_appends_duplicate fsDemo0 "a.txt" "hello" (by decide) (by decide) (by decide)
    (Or.inl (by decide))

/-- C10 witness: commit on a filesystem with no index file at all and on
a fresh repository with an empty index file both report
`NothingToCommit` and change nothing. -/
theorem C10_witness :
    MiniGit.commit emptyFS "m" = (emptyFS, .nothingToCommit) ∧
    MiniGit.commit (MiniGit.init emptyFS).1 "m" =
      ((MiniGit.init emptyFS).1, .nothingToCommit) :=
  C10_commit_missing_index emptyFS (MiniGit.init emptyFS).1 "m" (by decide) (by decide)
